import Mathlib

/-!
Verification development for the keyword-metrics aggregation service
(AdsTrendsAPI).  Each Python component that the checked properties touch is
shallowly embedded as executable Lean definitions:

* `PickleCache`   — the on-disk FIFO cache (src/cache.py, class PickleCache);
* `QueueManager`  — the in-process job queue (src/queue_manager.py);
* `GoogleAdsManager`    — the ads adapter's circuit breaker and retry loop
  (src/ads.py);
* `GoogleTrendsManager` — the trends adapter's hourly cap, breaker, per-keyword
  retry and bulk orchestration (src/trends.py);
* `process_keywords_batch` — the synchronous batch coordinator
  (src/api_routes.py).

Timestamps and real-valued scores are modelled as rationals; upstream
behaviour is an explicit oracle parameter; exceptions are explicit sum types.
-/

namespace AdsTrends

/-! ## On-disk FIFO cache — src/cache.py, class PickleCache

An ordered mapping (front = oldest-inserted) from keys to
`{value, expires_at}` entries.  File persistence (`_save_cache`) only
mirrors the in-memory mapping and is not modelled.  -/

structure CacheEntry (α : Type) where
  value : α
  expires_at : ℚ
deriving DecidableEq

structure PickleCache (α : Type) where
  max_entries : Nat
  entries : List (String × CacheEntry α)
deriving DecidableEq

def PickleCache.empty (α : Type) (maxEntries : Nat) : PickleCache α :=
  ⟨maxEntries, []⟩

/-- `_evict_if_needed`: `while len(self.cache) >= self.max_entries:
popitem(last=False)` — drop from the front until strictly below capacity. -/
def PickleCache.evict_if_needed {α} (c : PickleCache α) : PickleCache α :=
  { c with entries := c.entries.drop (c.entries.length + 1 - c.max_entries) }

/-- `PickleCache.set`: evict if needed, then `self.cache[key] = {...}` followed
by `move_to_end(key)` — i.e. remove any existing entry for `key` and append a
fresh one at the tail.  With `max_entries = 0` the Python eviction loop empties
the dict and then `popitem` raises `KeyError`, which `set` catches, returning
`False` with the cache left empty. -/
def PickleCache.set {α} (c : PickleCache α) (key : String) (v : α)
    (ttl : ℚ) (now : ℚ) : Bool × PickleCache α :=
  if c.max_entries = 0 then
    (false, { c with entries := [] })
  else
    let c1 := c.evict_if_needed
    (true, { c1 with entries :=
      (c1.entries.filter (fun p => p.1 ≠ key)) ++ [(key, ⟨v, now + ttl⟩)] })

/-- `PickleCache.get`: hit and unexpired → recency bump (`move_to_end`) and
return the value; hit but expired → delete and miss; absent → miss. -/
def PickleCache.get {α} (c : PickleCache α) (key : String) (now : ℚ) :
    Option α × PickleCache α :=
  match c.entries.lookup key with
  | none => (none, c)
  | some e =>
    if now < e.expires_at then
      (some e.value,
       { c with entries := (c.entries.filter (fun p => p.1 ≠ key)) ++ [(key, e)] })
    else
      (none, { c with entries := c.entries.filter (fun p => p.1 ≠ key) })

/-- A sequence of `set` calls (no intervening reads). -/
def PickleCache.setSeq {α} (c : PickleCache α) (kvs : List (String × α))
    (ttl now : ℚ) : PickleCache α :=
  kvs.foldl (fun c kv => (c.set kv.1 kv.2 ttl now).2) c

/-! ### Association-list helper lemmas -/

theorem lookup_eq_none_of_keys_ne {α : Type} (l : List (String × α)) (k : String)
    (h : ∀ p ∈ l, p.1 ≠ k) : l.lookup k = none := by
  induction l with
  | nil => rfl
  | cons a l ih =>
    obtain ⟨k', v⟩ := a
    have hk' : k' ≠ k := h (k', v) (List.mem_cons_self _ _)
    have : (k == k') = false := by
      simp only [beq_eq_false_iff_ne, ne_eq]
      exact fun hh => hk' hh.symm
    simp only [List.lookup, this]
    exact ih (fun p hp => h p (List.mem_cons_of_mem _ hp))

theorem lookup_append_singleton {α : Type} (l : List (String × α)) (k : String)
    (e : α) (h : ∀ p ∈ l, p.1 ≠ k) : (l ++ [(k, e)]).lookup k = some e := by
  induction l with
  | nil => simp [List.lookup]
  | cons a l ih =>
    obtain ⟨k', v⟩ := a
    have hk' : k' ≠ k := h (k', v) (List.mem_cons_self _ _)
    have : (k == k') = false := by
      simp only [beq_eq_false_iff_ne, ne_eq]
      exact fun hh => hk' hh.symm
    simp only [List.cons_append, List.lookup, this]
    exact ih (fun p hp => h p (List.mem_cons_of_mem _ hp))

theorem mem_filter_key_ne {α : Type} (l : List (String × α)) (k : String) :
    ∀ p ∈ l.filter (fun p => p.1 ≠ k), p.1 ≠ k := by
  intro p hp
  have := (List.mem_filter.mp hp).2
  simpa using this

theorem lookup_map_pair_of_mem {α : Type} (l : List String) (g : String → α)
    (k : String) (hk : k ∈ l) :
    (l.map (fun x => (x, g x))).lookup k = some (g k) := by
  induction l with
  | nil => cases hk
  | cons a l ih =>
    by_cases h : k = a
    · subst h; simp [List.lookup]
    · have : (k == a) = false := by
        simp only [beq_eq_false_iff_ne, ne_eq]; exact h
      simp only [List.map_cons, List.lookup, this]
      exact ih (by cases List.mem_cons.mp hk with
        | inl h' => exact absurd h' h
        | inr h' => exact h')

theorem lookup_map_pair_of_not_mem {α : Type} (l : List String) (g : String → α)
    (k : String) (hk : k ∉ l) :
    (l.map (fun x => (x, g x))).lookup k = none := by
  apply lookup_eq_none_of_keys_ne
  intro p hp
  obtain ⟨x, hx, rfl⟩ := List.mem_map.mp hp
  exact fun h => hk (h ▸ hx)

/-! ### FIFO characterization of `set` sequences with fresh keys -/

/-- The entry written for key `k` at time `now` with lifetime `ttl`. -/
def freshEntry {α : Type} (val : String → α) (ttl now : ℚ) (k : String) :
    String × CacheEntry α :=
  (k, ⟨val k, now + ttl⟩)

theorem set_fresh_step {α : Type} (N : Nat) (val : String → α) (ttl now : ℚ)
    (p : List String) (k : String) (hk : k ∉ p) :
    ((PickleCache.set ⟨N, (p.drop (p.length - N)).map (freshEntry val ttl now)⟩
        k (val k) ttl now).2 : PickleCache α)
      = ⟨N, ((p ++ [k]).drop (p.length + 1 - N)).map (freshEntry val ttl now)⟩ := by
  by_cases hN : N = 0
  · subst hN
    simp only [PickleCache.set, if_pos rfl]
    have : (p ++ [k]).drop (p.length + 1 - 0) = [] := by
      apply List.drop_eq_nil_of_le
      simp
    rw [this]
    simp
  · have hN1 : 1 ≤ N := Nat.one_le_iff_ne_zero.mpr hN
    simp only [PickleCache.set, if_neg hN, PickleCache.evict_if_needed]
    have hfilter :
        ∀ (l : List String), l ⊆ p →
          (l.map (freshEntry val ttl now)).filter (fun q => q.1 ≠ k)
            = l.map (freshEntry val ttl now) := by
      intro l hl
      apply List.filter_eq_self.mpr
      intro q hq
      obtain ⟨x, hx, rfl⟩ := List.mem_map.mp hq
      simp only [freshEntry, ne_eq, decide_eq_true_eq]
      exact fun h => hk (h ▸ hl hx)
    have hlen : ((p.drop (p.length - N)).map (freshEntry val ttl now)).length
        = p.length - (p.length - N) := by simp
    rw [hlen, ← List.map_drop, List.drop_drop,
        hfilter _ (List.drop_subset _ _)]
    have harith : p.length - N + (p.length - (p.length - N) + 1 - N)
        = p.length + 1 - N := by omega
    rw [harith]
    have hle : p.length + 1 - N ≤ p.length := by omega
    rw [List.drop_append_of_le_length hle, List.map_append]
    rfl

theorem setSeq_fresh_aux {α : Type} (N : Nat) (val : String → α) (ttl now : ℚ) :
    ∀ (ks p : List String), (p ++ ks).Nodup →
      PickleCache.setSeq
          ⟨N, (p.drop (p.length - N)).map (freshEntry val ttl now)⟩
          (ks.map (fun k => (k, val k))) ttl now
        = ⟨N, ((p ++ ks).drop ((p ++ ks).length - N)).map (freshEntry val ttl now)⟩ := by
  intro ks
  induction ks with
  | nil =>
    intro p _
    simp [PickleCache.setSeq]
  | cons k ks ih =>
    intro p hnd
    have hk : k ∉ p := by
      intro hkp
      have := (List.nodup_append.mp hnd).2.2
      exact this hkp (List.mem_cons_self _ _)
    have step := set_fresh_step N val ttl now p k hk
    have hassoc : (p ++ [k]) ++ ks = p ++ k :: ks := by simp
    have hnd' : ((p ++ [k]) ++ ks).Nodup := by rw [hassoc]; exact hnd
    have := ih (p ++ [k]) hnd'
    simp only [List.map_cons, PickleCache.setSeq, List.foldl_cons] at *
    rw [step]
    have hlen : (p ++ [k]).length = p.length + 1 := by simp
    rw [← hlen]
    rw [this]
    rw [hassoc]

theorem setSeq_fresh {α : Type} (N : Nat) (val : String → α) (ttl now : ℚ)
    (ks : List String) (h : ks.Nodup) :
    PickleCache.setSeq (PickleCache.empty α N) (ks.map (fun k => (k, val k))) ttl now
      = ⟨N, (ks.drop (ks.length - N)).map (freshEntry val ttl now)⟩ := by
  have := setSeq_fresh_aux N val ttl now ks [] (by simpa using h)
  simpa [PickleCache.empty] using this

/-- C4: after any `set` returns, the number of entries never exceeds
`max_entries`; and after any sequence of `n` sets with distinct keys (and no
intervening gets) starting from the empty cache, the cache holds exactly
`min n max_entries` entries and the earliest-inserted `n - max_entries` keys
are absent. -/
theorem C4_fifo_cap {α : Type} :
    (∀ (c : PickleCache α) (k : String) (v : α) (ttl now : ℚ),
      ((c.set k v ttl now).2).entries.length ≤ c.max_entries)
  ∧ (∀ (N : Nat) (ks : List String) (val : String → α) (ttl now : ℚ),
      ks.Nodup →
      (PickleCache.setSeq (PickleCache.empty α N)
          (ks.map (fun k => (k, val k))) ttl now).entries.length
        = min ks.length N
      ∧ ∀ k ∈ ks.take (ks.length - N),
          (PickleCache.setSeq (PickleCache.empty α N)
              (ks.map (fun k => (k, val k))) ttl now).entries.lookup k = none) := by
  constructor
  · intro c k v ttl now
    by_cases hN : c.max_entries = 0
    · simp [PickleCache.set, hN]
    · simp only [PickleCache.set, if_neg hN, PickleCache.evict_if_needed]
      have h1 := List.length_filter_le (fun (p : String × CacheEntry α) => p.1 ≠ k)
        (c.entries.drop (c.entries.length + 1 - c.max_entries))
      have h2 : (c.entries.drop (c.entries.length + 1 - c.max_entries)).length
          = c.entries.length - (c.entries.length + 1 - c.max_entries) := by simp
      simp only [List.length_append, List.length_cons, List.length_nil]
      omega
  · intro N ks val ttl now hnd
    rw [setSeq_fresh N val ttl now ks hnd]
    constructor
    · simp
      omega
    · intro k hk
      have hnmem : k ∉ ks.drop (ks.length - N) := by
        have := hnd
        rw [← List.take_append_drop (ks.length - N) ks] at this
        have hdisj := (List.nodup_append.mp this).2.2
        exact hdisj hk
      exact lookup_map_pair_of_not_mem _ _ _ hnmem

/-- C4 witness: two distinct keys set into a capacity-1 empty cache leave one
entry, the earliest key gone. -/
theorem C4_fifo_cap_witness :
    (PickleCache.setSeq (PickleCache.empty Nat 1)
        ((["a", "b"] : List String).map (fun k => (k, (0 : Nat)))) 5 0).entries.length
      = min (["a", "b"] : List String).length 1
    ∧ ∀ k ∈ (["a", "b"] : List String).take ((["a", "b"] : List String).length - 1),
        (PickleCache.setSeq (PickleCache.empty Nat 1)
            ((["a", "b"] : List String).map (fun k => (k, (0 : Nat)))) 5 0).entries.lookup k
          = none :=
  (C4_fifo_cap.2) 1 ["a", "b"] (fun _ => 0) 5 0 (by decide)

/-- C8: after `set k v ttl` succeeds at time `now`, a `get k` strictly before
`now + ttl` returns `v`; a `get k` at or after `now + ttl` returns a miss and
deletes the expired entry. -/
theorem C8_cache_roundtrip {α : Type} (c : PickleCache α) (k : String) (v : α)
    (ttl now t : ℚ) (hmax : 1 ≤ c.max_entries) :
    ((c.set k v ttl now).1 = true)
    ∧ (t < now + ttl → (((c.set k v ttl now).2).get k t).1 = some v)
    ∧ (now + ttl ≤ t →
        (((c.set k v ttl now).2).get k t).1 = none
        ∧ ((((c.set k v ttl now).2).get k t).2).entries.lookup k = none) := by
  have hN : c.max_entries ≠ 0 := by omega
  have hmem : ∀ p ∈ ((c.evict_if_needed).entries.filter (fun p => p.1 ≠ k)), p.1 ≠ k :=
    mem_filter_key_ne _ k
  have hset : (c.set k v ttl now).2
      = { c.evict_if_needed with entries :=
          ((c.evict_if_needed).entries.filter (fun p => p.1 ≠ k))
            ++ [(k, ⟨v, now + ttl⟩)] } := by
    simp [PickleCache.set, if_neg hN]
  have hlookup : ((c.set k v ttl now).2).entries.lookup k
      = some (⟨v, now + ttl⟩ : CacheEntry α) := by
    rw [hset]
    exact lookup_append_singleton _ _ _ hmem
  refine ⟨by simp [PickleCache.set, if_neg hN], ?_, ?_⟩
  · intro ht
    simp only [PickleCache.get, hlookup, if_pos ht]
  · intro ht
    have hnotlt : ¬ t < now + ttl := not_lt.mpr ht
    constructor
    · simp only [PickleCache.get, hlookup, if_neg hnotlt]
    · simp only [PickleCache.get, hlookup, if_neg hnotlt]
      apply lookup_eq_none_of_keys_ne
      exact mem_filter_key_ne _ k

/-- C8 witness: a concrete round trip through a capacity-1 cache with
`ttl = 10`, read back before and after expiry. -/
theorem C8_cache_roundtrip_witness :
    (((PickleCache.empty Nat 1).set "a" 7 10 0).1 = true)
    ∧ ((5 : ℚ) < 0 + 10 →
        ((((PickleCache.empty Nat 1).set "a" 7 10 0).2).get "a" 5).1 = some 7)
    ∧ ((0 : ℚ) + 10 ≤ 5 →
        ((((PickleCache.empty Nat 1).set "a" 7 10 0).2).get "a" 5).1 = none
        ∧ (((((PickleCache.empty Nat 1).set "a" 7 10 0).2).get "a" 5).2).entries.lookup "a"
            = none) :=
  C8_cache_roundtrip (PickleCache.empty Nat 1) "a" 7 10 0 5 (by decide)

/-! ## Job queue — src/queue_manager.py, class QueueManager

`pending_queue` is an ordered deque (front = next to dispatch); `processing`
and `failed` are Python sets, modelled as membership-deduplicated lists;
`completed` is a dict from keyword to a completion record.  All operations run
under the queue's single lock, so they are modelled as atomic transitions. -/

structure CompletedRec where
  googleAdsAvgMonthlySearches : Option ℤ
  googleTrendsScore : Option ℚ
  completed_at : ℚ
deriving DecidableEq

/-- Python `set.add`: insert if not already a member. -/
def setInsert (l : List String) (k : String) : List String :=
  if k ∈ l then l else l ++ [k]

/-- Python dict assignment `d[k] = v`: update in place if the key exists,
else append at the tail. -/
def dictInsert {α : Type} (l : List (String × α)) (k : String) (v : α) :
    List (String × α) :=
  if k ∈ l.map Prod.fst then
    l.map (fun p => if p.1 = k then (k, v) else p)
  else l ++ [(k, v)]

structure QueueManager where
  pending_queue : List String
  processing : List String
  completed : List (String × CompletedRec)
  failed : List String
  last_batch_time : ℚ
deriving DecidableEq

def QueueManager.init : QueueManager := ⟨[], [], [], [], 0⟩

def max_concurrent : Nat := 20

/-- One iteration of the `add_keywords` loop: append to `pending_queue` unless
the keyword is already in `pending_queue`, `processing` or `completed`.  (The
source does not check `failed`.) -/
def QueueManager.add_one (q : QueueManager) (k : String) : QueueManager :=
  if k ∉ q.pending_queue ∧ k ∉ q.processing ∧ k ∉ q.completed.map Prod.fst then
    { q with pending_queue := q.pending_queue ++ [k] }
  else q

/-- `add_keywords`: run the loop over the submitted keyword list. -/
def QueueManager.add_keywords (q : QueueManager) (ks : List String) : QueueManager :=
  ks.foldl QueueManager.add_one q

/-- `get_next_batch`: pop up to `max_concurrent` keywords off the front of
`pending_queue` into `processing`; record the batch time if nonempty.  (The
rate-gate sleep affects only timing, not state.) -/
def QueueManager.get_next_batch (q : QueueManager) (now : ℚ) :
    List String × QueueManager :=
  let batch := q.pending_queue.take max_concurrent
  (batch,
   { q with
     pending_queue := q.pending_queue.drop max_concurrent,
     processing := batch.foldl setInsert q.processing,
     last_batch_time := if batch.isEmpty then q.last_batch_time else now })

/-- `mark_completed`: remove from `processing` if present, then
`completed[keyword] = {...}` unconditionally. -/
def QueueManager.mark_completed (q : QueueManager) (k : String)
    (ads : Option ℤ) (trends : Option ℚ) (now : ℚ) : QueueManager :=
  { q with
    processing := q.processing.filter (fun x => x ≠ k),
    completed := dictInsert q.completed k ⟨ads, trends, now⟩ }

/-- `mark_failed`: remove from `processing` if present, then
`failed.add(keyword)` unconditionally. -/
def QueueManager.mark_failed (q : QueueManager) (k : String) : QueueManager :=
  { q with
    processing := q.processing.filter (fun x => x ≠ k),
    failed := setInsert q.failed k }

/-- States reachable from the initial empty queue by any sequence of
`add_keywords`, `get_next_batch`, `mark_completed`, `mark_failed`, `reset`. -/
inductive QueueReachable : QueueManager → Prop
  | init : QueueReachable QueueManager.init
  | add (q ks) : QueueReachable q → QueueReachable (q.add_keywords ks)
  | batch (q now) : QueueReachable q → QueueReachable (q.get_next_batch now).2
  | complete (q k ads trends now) : QueueReachable q →
      QueueReachable (q.mark_completed k ads trends now)
  | fail (q k) : QueueReachable q → QueueReachable (q.mark_failed k)
  | reset (q) : QueueReachable q → QueueReachable QueueManager.init

/-! ### Queue lemmas -/

theorem mem_foldl_setInsert (l : List String) :
    ∀ (l0 : List String) (k : String),
      (k ∈ l.foldl setInsert l0 ↔ k ∈ l0 ∨ k ∈ l) := by
  induction l with
  | nil => intro l0 k; simp
  | cons a l ih =>
    intro l0 k
    rw [List.foldl_cons, ih]
    unfold setInsert
    by_cases ha : a ∈ l0
    · rw [if_pos ha]
      constructor
      · rintro (h | h)
        · exact Or.inl h
        · exact Or.inr (List.mem_cons_of_mem _ h)
      · rintro (h | h)
        · exact Or.inl h
        · cases List.mem_cons.mp h with
          | inl he => exact Or.inl (he ▸ ha)
          | inr hm => exact Or.inr hm
    · rw [if_neg ha]
      simp only [List.mem_append, List.mem_singleton, List.mem_cons]
      tauto

theorem add_one_processing (q : QueueManager) (k : String) :
    (q.add_one k).processing = q.processing := by
  unfold QueueManager.add_one; split <;> rfl

theorem add_one_completed (q : QueueManager) (k : String) :
    (q.add_one k).completed = q.completed := by
  unfold QueueManager.add_one; split <;> rfl

theorem add_one_failed (q : QueueManager) (k : String) :
    (q.add_one k).failed = q.failed := by
  unfold QueueManager.add_one; split <;> rfl

theorem add_keywords_processing (ks : List String) :
    ∀ q : QueueManager, (q.add_keywords ks).processing = q.processing := by
  induction ks with
  | nil => intro q; rfl
  | cons k ks ih =>
    intro q
    show ((q.add_one k).add_keywords ks).processing = _
    rw [ih, add_one_processing]

theorem add_keywords_completed (ks : List String) :
    ∀ q : QueueManager, (q.add_keywords ks).completed = q.completed := by
  induction ks with
  | nil => intro q; rfl
  | cons k ks ih =>
    intro q
    show ((q.add_one k).add_keywords ks).completed = _
    rw [ih, add_one_completed]

theorem add_keywords_failed (ks : List String) :
    ∀ q : QueueManager, (q.add_keywords ks).failed = q.failed := by
  induction ks with
  | nil => intro q; rfl
  | cons k ks ih =>
    intro q
    show ((q.add_one k).add_keywords ks).failed = _
    rw [ih, add_one_failed]

theorem add_one_pending_mem (q : QueueManager) (j k : String)
    (h : k ∈ q.processing ∨ k ∈ q.completed.map Prod.fst ∨ k ∈ q.pending_queue) :
    (k ∈ (q.add_one j).pending_queue ↔ k ∈ q.pending_queue) := by
  unfold QueueManager.add_one
  split
  · next hcond =>
    simp only [List.mem_append, List.mem_singleton]
    constructor
    · rintro (hm | rfl)
      · exact hm
      · rcases h with h | h | h
        · exact absurd h hcond.2.1
        · exact absurd h hcond.2.2
        · exact h
    · exact Or.inl
  · exact Iff.rfl

theorem add_keywords_pending_mem (ks : List String) :
    ∀ (q : QueueManager) (k : String),
      (k ∈ q.processing ∨ k ∈ q.completed.map Prod.fst ∨ k ∈ q.pending_queue) →
      (k ∈ (q.add_keywords ks).pending_queue ↔ k ∈ q.pending_queue) := by
  induction ks with
  | nil => intro q k _; exact Iff.rfl
  | cons j ks ih =>
    intro q k h
    have hone := add_one_pending_mem q j k h
    have h' : k ∈ (q.add_one j).processing ∨ k ∈ (q.add_one j).completed.map Prod.fst
        ∨ k ∈ (q.add_one j).pending_queue := by
      rw [add_one_processing, add_one_completed]
      rcases h with h | h | h
      · exact Or.inl h
      · exact Or.inr (Or.inl h)
      · exact Or.inr (Or.inr (hone.mpr h))
    show (k ∈ ((q.add_one j).add_keywords ks).pending_queue ↔ _)
    rw [ih (q.add_one j) k h', hone]

/-- The auxiliary invariant behind the amended C5: the pending deque has no
duplicates and is disjoint from `processing`. -/
def QInv (q : QueueManager) : Prop :=
  q.pending_queue.Nodup ∧ ∀ k ∈ q.pending_queue, k ∉ q.processing

theorem add_one_inv (q : QueueManager) (k : String) (h : QInv q) :
    QInv (q.add_one k) := by
  unfold QueueManager.add_one
  split
  · next hcond =>
    constructor
    · exact List.Nodup.append h.1 (List.nodup_singleton k)
        (by intro x hx hx'
            rw [List.mem_singleton] at hx'
            exact hcond.1 (hx' ▸ hx))
    · intro x hx
      rcases List.mem_append.mp hx with hm | hm
      · exact h.2 x hm
      · rw [List.mem_singleton] at hm
        exact hm ▸ hcond.2.1
  · exact h

theorem add_keywords_inv (ks : List String) :
    ∀ q : QueueManager, QInv q → QInv (q.add_keywords ks) := by
  induction ks with
  | nil => intro q h; exact h
  | cons k ks ih =>
    intro q h
    exact ih (q.add_one k) (add_one_inv q k h)

theorem get_next_batch_inv (q : QueueManager) (now : ℚ) (h : QInv q) :
    QInv (q.get_next_batch now).2 := by
  obtain ⟨hnd, hdisj⟩ := h
  constructor
  · exact List.Sublist.nodup (List.drop_sublist _ _) hnd
  · intro k hk
    simp only [QueueManager.get_next_batch] at hk ⊢
    rw [mem_foldl_setInsert]
    push_neg
    constructor
    · exact hdisj k (List.drop_subset _ _ hk)
    · have := hnd
      rw [← List.take_append_drop max_concurrent q.pending_queue] at this
      exact fun htk => ((List.nodup_append.mp this).2.2 htk hk).elim

theorem mark_completed_inv (q : QueueManager) (k : String) (ads : Option ℤ)
    (trends : Option ℚ) (now : ℚ) (h : QInv q) :
    QInv (q.mark_completed k ads trends now) := by
  refine ⟨h.1, fun x hx hxp => ?_⟩
  exact h.2 x hx (List.mem_of_mem_filter hxp)

theorem mark_failed_inv (q : QueueManager) (k : String) (h : QInv q) :
    QInv (q.mark_failed k) := by
  refine ⟨h.1, fun x hx hxp => ?_⟩
  exact h.2 x hx (List.mem_of_mem_filter hxp)

theorem queue_reachable_inv (q : QueueManager) (h : QueueReachable q) : QInv q := by
  induction h with
  | init => exact ⟨List.nodup_nil, by intro k hk; cases hk⟩
  | add q ks _ ih => exact add_keywords_inv ks q ih
  | batch q now _ ih => exact get_next_batch_inv q now ih
  | complete q k ads trends now _ ih => exact mark_completed_inv q k ads trends now ih
  | fail q k _ ih => exact mark_failed_inv q k ih
  | reset q _ => exact ⟨List.nodup_nil, by intro k hk; cases hk⟩

/-- C5 counterexample: `mark_completed` and `mark_failed` add their keyword
unconditionally, so the reachable state obtained from the empty queue by
`mark_completed "a"` followed by `mark_failed "a"` has `"a"` in both the
`completed` and the `failed` set — the four sets are not pairwise disjoint in
every reachable state. -/
theorem C5_partition_counterexample :
    QueueReachable ((QueueManager.init.mark_completed "a" none none 0).mark_failed "a")
    ∧ "a" ∈ ((QueueManager.init.mark_completed "a" none none 0).mark_failed
        "a").completed.map Prod.fst
    ∧ "a" ∈ ((QueueManager.init.mark_completed "a" none none 0).mark_failed "a").failed :=
  ⟨QueueReachable.fail _ _ (QueueReachable.complete _ _ _ _ _ QueueReachable.init),
   by decide, by decide⟩

/-- C5 amended: in every reachable state of the queue, `pending` and
`processing` are disjoint.  The remaining pairs need not be disjoint:
`mark_completed`/`mark_failed` insert unconditionally, and `add_keywords` does
not filter keywords that are only in `failed`, so `completed ∩ failed`,
`failed ∩ pending`, `failed ∩ processing`, `pending ∩ completed` and
`processing ∩ completed` can all be inhabited. -/
theorem C5_pending_processing_disjoint (q : QueueManager)
    (h : QueueReachable q) : ∀ k ∈ q.pending_queue, k ∉ q.processing :=
  (queue_reachable_inv q h).2

/-- C5 witness: the amended disjointness applied to a concrete reachable
state with a nonempty pending queue. -/
theorem C5_pending_processing_disjoint_witness :
    "a" ∉ (QueueManager.init.add_keywords ["a"]).processing :=
  C5_pending_processing_disjoint (QueueManager.init.add_keywords ["a"])
    (QueueReachable.add _ _ QueueReachable.init) "a" (by decide)

/-- The reachable queue state in which `"a"` sits only in the `failed` set:
add it, dispatch it, fail it. -/
def qFailedOnly : QueueManager :=
  (((QueueManager.init.add_keywords ["a"]).get_next_batch 0).2).mark_failed "a"

/-- C6 counterexample: `add_keywords` does not check the `failed` set, so a
keyword present only in `failed` is re-added to `pending`, changing its
membership — the queue is not add-once for failed keywords. -/
theorem C6_add_once_counterexample :
    QueueReachable qFailedOnly
    ∧ "a" ∈ qFailedOnly.failed
    ∧ "a" ∉ qFailedOnly.pending_queue
    ∧ "a" ∈ (qFailedOnly.add_keywords ["a"]).pending_queue :=
  ⟨QueueReachable.fail _ _ (QueueReachable.batch _ _ (QueueReachable.add _ _
      QueueReachable.init)),
   by decide, by decide, by decide⟩

/-- C6 amended: `add_keywords` never re-adds a keyword that is already in
`pending`, `processing` or `completed` and leaves that keyword's membership in
all four sets unchanged; a keyword present only in `failed` is not protected
and is re-added. -/
theorem C6_add_once (q : QueueManager) (ks : List String) (k : String)
    (h : k ∈ q.pending_queue ∨ k ∈ q.processing ∨ k ∈ q.completed.map Prod.fst) :
    ((k ∈ (q.add_keywords ks).pending_queue ↔ k ∈ q.pending_queue)
     ∧ (q.add_keywords ks).processing = q.processing
     ∧ (q.add_keywords ks).completed = q.completed
     ∧ (q.add_keywords ks).failed = q.failed) := by
  refine ⟨?_, add_keywords_processing ks q, add_keywords_completed ks q,
    add_keywords_failed ks q⟩
  apply add_keywords_pending_mem
  tauto

/-- C6 witness: re-submitting a pending keyword together with a fresh one
leaves the pending membership of the former unchanged. -/
theorem C6_add_once_witness :
    (("a" ∈ ((QueueManager.init.add_keywords ["a"]).add_keywords ["a", "b"]).pending_queue
        ↔ "a" ∈ (QueueManager.init.add_keywords ["a"]).pending_queue)
     ∧ ((QueueManager.init.add_keywords ["a"]).add_keywords ["a", "b"]).processing
        = (QueueManager.init.add_keywords ["a"]).processing
     ∧ ((QueueManager.init.add_keywords ["a"]).add_keywords ["a", "b"]).completed
        = (QueueManager.init.add_keywords ["a"]).completed
     ∧ ((QueueManager.init.add_keywords ["a"]).add_keywords ["a", "b"]).failed
        = (QueueManager.init.add_keywords ["a"]).failed) :=
  C6_add_once (QueueManager.init.add_keywords ["a"]) ["a", "b"] "a"
    (Or.inl (by decide))

/-! ## Ads adapter — src/ads.py, class GoogleAdsManager

Only the breaker/retry state machine is relevant here.  The upstream is an
oracle assigning to every attempt index an outcome: a response (a positional
list of optional volumes), a `GoogleAdsException`, or any other exception. -/

def ads_max_retries : Nat := 3
def ads_circuit_breaker_threshold : Nat := 5
def ads_circuit_breaker_timeout : ℚ := 300

structure GoogleAdsManager where
  consecutive_failures : Nat
  circuit_breaker_opened_at : Option ℚ
deriving DecidableEq

inductive AdsAttempt (α : Type) where
  | ok (v : α)
  | adsErr
  | otherErr
deriving DecidableEq

inductive AdsRaised where
  | breakerOpen
  | apiError
deriving DecidableEq

/-- `_check_circuit_breaker`: if the failure count has reached the threshold,
stamp `opened_at = now` when unset; raise while inside the cooldown, else
clear `opened_at`, zero the counter and admit.  The first component signals
the raised `CircuitBreakerError`; state mutations made before the raise are
kept, as in the source. -/
def GoogleAdsManager.check_circuit_breaker (s : GoogleAdsManager) (now : ℚ) :
    Bool × GoogleAdsManager :=
  if s.consecutive_failures < ads_circuit_breaker_threshold then (false, s)
  else
    let t0 := s.circuit_breaker_opened_at.getD now
    if now - t0 < ads_circuit_breaker_timeout then
      (true, { s with circuit_breaker_opened_at := some t0 })
    else (false, ⟨0, none⟩)

/-- The `for attempt in range(max_retries)` body of `_execute_with_retry`:
success zeroes the counter and returns; a `GoogleAdsException` increments it
and retries unless this was the last attempt; any other exception increments
it and breaks.  Returns (outcome, state, number of upstream invocations). -/
def adsRetryLoop {α : Type} (outs : Nat → AdsAttempt α) :
    Nat → Nat → GoogleAdsManager → Except AdsRaised α × GoogleAdsManager × Nat
  | _, 0, s => (.error .apiError, s, 0)
  | attempt, fuel + 1, s =>
    match outs attempt with
    | .ok v => (.ok v, { s with consecutive_failures := 0 }, 1)
    | .adsErr =>
      let s1 := { s with consecutive_failures := s.consecutive_failures + 1 }
      if attempt + 1 < ads_max_retries then
        let r := adsRetryLoop outs (attempt + 1) fuel s1
        (r.1, r.2.1, r.2.2 + 1)
      else (.error .apiError, s1, 1)
    | .otherErr =>
      (.error .apiError, { s with consecutive_failures := s.consecutive_failures + 1 }, 1)

/-- `_execute_with_retry`: check the breaker, then run the retry loop. -/
def GoogleAdsManager.execute_with_retry {α : Type} (s : GoogleAdsManager)
    (outs : Nat → AdsAttempt α) (now : ℚ) :
    Except AdsRaised α × GoogleAdsManager × Nat :=
  let c := s.check_circuit_breaker now
  if c.1 then (.error .breakerOpen, c.2, 0)
  else adsRetryLoop outs 0 ads_max_retries c.2

/-- `_get_keyword_metrics` result handling: keywords are matched to response
entries by position; a present nonzero volume is kept, a falsy metric or
volume yields `0`, positions past the end of the response yield `None`. -/
def get_keyword_metrics_map (keywords : List String) (resp : List (Option ℤ)) :
    List (String × Option ℤ) :=
  keywords.enum.map (fun p =>
    (p.2, if p.1 < resp.length then some ((resp.getD p.1 none).getD 0) else none))

/-- `get_bulk_metrics`: an uninitialized client returns all-`None` without
touching the breaker; otherwise run `_get_keyword_metrics` under
`_execute_with_retry`, and downgrade any raised error to an all-`None` map. -/
def GoogleAdsManager.get_bulk_metrics (s : GoogleAdsManager) (initialized : Bool)
    (outs : Nat → AdsAttempt (List (Option ℤ))) (now : ℚ) (keywords : List String) :
    List (String × Option ℤ) × GoogleAdsManager × Nat :=
  if initialized then
    match s.execute_with_retry outs now with
    | (.ok resp, s', c) => (get_keyword_metrics_map keywords resp, s', c)
    | (.error _, s', c) => (keywords.map (fun k => (k, none)), s', c)
  else (keywords.map (fun k => (k, none)), s, 0)

theorem adsRetryLoop_calls_pos {α : Type} (outs : Nat → AdsAttempt α)
    (attempt fuel : Nat) (s : GoogleAdsManager) (h : 1 ≤ fuel) :
    1 ≤ (adsRetryLoop outs attempt fuel s).2.2 := by
  obtain ⟨fuel, rfl⟩ := Nat.exists_eq_add_of_le h
  rw [Nat.add_comm]
  cases houts : outs attempt with
  | ok v => simp [adsRetryLoop, houts]
  | adsErr =>
    simp only [adsRetryLoop, houts]
    split <;> simp
  | otherErr => simp [adsRetryLoop, houts]

theorem adsRetryLoop_all_adsErr {α : Type} (outs : Nat → AdsAttempt α)
    (s : GoogleAdsManager) (h : ∀ i, outs i = .adsErr) :
    adsRetryLoop outs 0 ads_max_retries s
      = (.error .apiError,
         ⟨s.consecutive_failures + 3, s.circuit_breaker_opened_at⟩, 3) := by
  show adsRetryLoop outs 0 3 s = _
  simp only [adsRetryLoop, h 0, h 1, h 2, ads_max_retries]
  norm_num

/-- C2: with the failure count at or above the threshold, an entry that finds
`opened_at` unset stamps it to `now` and fails fast; every entry within the
cooldown fails fast with the breaker-open error and zero upstream
invocations; an entry at or after the cooldown clears `opened_at`, zeroes the
counter, and invokes the upstream (exactly once when the first attempt
succeeds). -/
theorem C2_ads_circuit_breaker :
    (∀ {α : Type} (s : GoogleAdsManager) (now : ℚ) (outs : Nat → AdsAttempt α),
      ads_circuit_breaker_threshold ≤ s.consecutive_failures →
      s.circuit_breaker_opened_at = none →
      s.check_circuit_breaker now = (true, ⟨s.consecutive_failures, some now⟩)
      ∧ s.execute_with_retry outs now
          = (.error .breakerOpen, ⟨s.consecutive_failures, some now⟩, 0))
  ∧ (∀ {α : Type} (s : GoogleAdsManager) (now t : ℚ) (outs : Nat → AdsAttempt α),
      ads_circuit_breaker_threshold ≤ s.consecutive_failures →
      s.circuit_breaker_opened_at = some t →
      now - t < ads_circuit_breaker_timeout →
      s.execute_with_retry outs now = (.error .breakerOpen, s, 0))
  ∧ (∀ {α : Type} (s : GoogleAdsManager) (now t : ℚ) (outs : Nat → AdsAttempt α)
       (v : α),
      ads_circuit_breaker_threshold ≤ s.consecutive_failures →
      s.circuit_breaker_opened_at = some t →
      ads_circuit_breaker_timeout ≤ now - t →
      s.check_circuit_breaker now = (false, ⟨0, none⟩)
      ∧ 1 ≤ (s.execute_with_retry outs now).2.2
      ∧ (outs 0 = .ok v → s.execute_with_retry outs now = (.ok v, ⟨0, none⟩, 1))) := by
  refine ⟨?_, ?_, ?_⟩
  · intro α s now outs hth hnone
    have hcheck : s.check_circuit_breaker now
        = (true, ⟨s.consecutive_failures, some now⟩) := by
      obtain ⟨cf, oa⟩ := s
      simp only at hnone
      subst hnone
      simp only [GoogleAdsManager.check_circuit_breaker] at *
      rw [if_neg (by omega)]
      simp only [Option.getD_none]
      rw [if_pos (by simp only [sub_self]; norm_num [ads_circuit_breaker_timeout])]
    refine ⟨hcheck, ?_⟩
    simp [GoogleAdsManager.execute_with_retry, hcheck]
  · intro α s now t outs hth hsome hlt
    have hcheck : s.check_circuit_breaker now = (true, s) := by
      obtain ⟨cf, oa⟩ := s
      simp only at hsome
      subst hsome
      simp only [GoogleAdsManager.check_circuit_breaker] at *
      rw [if_neg (by omega)]
      simp only [Option.getD_some]
      rw [if_pos hlt]
    simp [GoogleAdsManager.execute_with_retry, hcheck]
  · intro α s now t outs v hth hsome hge
    have hcheck : s.check_circuit_breaker now = (false, ⟨0, none⟩) := by
      obtain ⟨cf, oa⟩ := s
      simp only at hsome
      subst hsome
      simp only [GoogleAdsManager.check_circuit_breaker] at *
      rw [if_neg (by omega)]
      simp only [Option.getD_some]
      rw [if_neg (by exact not_lt.mpr hge)]
    refine ⟨hcheck, ?_, ?_⟩
    · simp only [GoogleAdsManager.execute_with_retry, hcheck]
      exact adsRetryLoop_calls_pos outs 0 ads_max_retries ⟨0, none⟩
        (by simp [ads_max_retries])
    · intro hok
      simp only [GoogleAdsManager.execute_with_retry, hcheck]
      show adsRetryLoop outs 0 3 ⟨0, none⟩ = _
      simp [adsRetryLoop, hok]

/-- C2 witness: the three breaker phases exercised at concrete states and
times (threshold just reached at `now = 0`; inside cooldown at `now = 1`;
cooldown elapsed at `now = 300` with a succeeding first attempt). -/
theorem C2_ads_circuit_breaker_witness :
    ((⟨5, none⟩ : GoogleAdsManager).check_circuit_breaker 0 = (true, ⟨5, some 0⟩)
     ∧ (⟨5, none⟩ : GoogleAdsManager).execute_with_retry
          (fun _ => (.ok () : AdsAttempt Unit)) 0
        = (.error .breakerOpen, ⟨5, some 0⟩, 0))
    ∧ ((⟨5, some 0⟩ : GoogleAdsManager).execute_with_retry
          (fun _ => (.ok () : AdsAttempt Unit)) 1
        = (.error .breakerOpen, ⟨5, some 0⟩, 0))
    ∧ ((⟨5, some 0⟩ : GoogleAdsManager).check_circuit_breaker 300 = (false, ⟨0, none⟩)
       ∧ 1 ≤ ((⟨5, some 0⟩ : GoogleAdsManager).execute_with_retry
            (fun _ => (.ok () : AdsAttempt Unit)) 300).2.2
       ∧ ((fun _ => (.ok () : AdsAttempt Unit)) 0 = .ok () →
           (⟨5, some 0⟩ : GoogleAdsManager).execute_with_retry
              (fun _ => (.ok () : AdsAttempt Unit)) 300
             = (.ok (), ⟨0, none⟩, 1))) :=
  ⟨C2_ads_circuit_breaker.1 ⟨5, none⟩ 0 (fun _ => .ok ()) (by decide) rfl,
   C2_ads_circuit_breaker.2.1 ⟨5, some 0⟩ 1 0 (fun _ => .ok ()) (by decide) rfl
     (by norm_num [ads_circuit_breaker_timeout]),
   C2_ads_circuit_breaker.2.2 ⟨5, some 0⟩ 300 0 (fun _ => .ok ()) () (by decide) rfl
     (by norm_num [ads_circuit_breaker_timeout])⟩

/-- C9: `consecutive_failures` is incremented once per failed attempt inside
the retry loop: one `get_bulk_metrics` call whose three attempts all raise
`GoogleAdsException` adds 3 to the counter (and downgrades to an all-`None`
map), so starting from a fresh adapter two such public calls reach a count of
6 ≥ 5 and the next entry opens the breaker without invoking the upstream. -/
theorem C9_failure_count_per_attempt :
    (∀ (s : GoogleAdsManager) (outs : Nat → AdsAttempt (List (Option ℤ)))
       (now : ℚ) (keywords : List String),
      (∀ i, outs i = .adsErr) →
      s.consecutive_failures < ads_circuit_breaker_threshold →
      s.get_bulk_metrics true outs now keywords
        = (keywords.map (fun k => (k, none)),
           ⟨s.consecutive_failures + 3, s.circuit_breaker_opened_at⟩, 3))
  ∧ (∀ (outs : Nat → AdsAttempt (List (Option ℤ))) (now₁ now₂ now₃ : ℚ)
       (keywords : List String),
      (∀ i, outs i = .adsErr) →
      (((⟨0, none⟩ : GoogleAdsManager).get_bulk_metrics true outs now₁
          keywords).2.1.get_bulk_metrics true outs now₂ keywords).2.1
        = ⟨6, none⟩
      ∧ (⟨6, none⟩ : GoogleAdsManager).check_circuit_breaker now₃
          = (true, ⟨6, some now₃⟩)
      ∧ (⟨6, none⟩ : GoogleAdsManager).execute_with_retry outs now₃
          = (.error .breakerOpen, ⟨6, some now₃⟩, 0)) := by
  have hmain : ∀ (s : GoogleAdsManager) (outs : Nat → AdsAttempt (List (Option ℤ)))
      (now : ℚ) (keywords : List String),
      (∀ i, outs i = .adsErr) →
      s.consecutive_failures < ads_circuit_breaker_threshold →
      s.get_bulk_metrics true outs now keywords
        = (keywords.map (fun k => (k, none)),
           ⟨s.consecutive_failures + 3, s.circuit_breaker_opened_at⟩, 3) := by
    intro s outs now keywords houts hlt
    have hcheck : s.check_circuit_breaker now = (false, s) := by
      simp only [GoogleAdsManager.check_circuit_breaker]
      rw [if_pos hlt]
    have hexec : s.execute_with_retry outs now
        = (.error .apiError,
           ⟨s.consecutive_failures + 3, s.circuit_breaker_opened_at⟩, 3) := by
      simp only [GoogleAdsManager.execute_with_retry, hcheck]
      exact adsRetryLoop_all_adsErr outs s houts
    simp [GoogleAdsManager.get_bulk_metrics, hexec]
  refine ⟨hmain, ?_⟩
  intro outs now₁ now₂ now₃ keywords houts
  have h1 := hmain ⟨0, none⟩ outs now₁ keywords houts (by decide)
  have h2 := hmain ⟨3, none⟩ outs now₂ keywords houts (by decide)
  have hcheck : (⟨6, none⟩ : GoogleAdsManager).check_circuit_breaker now₃
      = (true, ⟨6, some now₃⟩) := by
    simp only [GoogleAdsManager.check_circuit_breaker]
    rw [if_neg (by norm_num [ads_circuit_breaker_threshold])]
    simp only [Option.getD_none]
    rw [if_pos (by simp only [sub_self]; norm_num [ads_circuit_breaker_timeout])]
  refine ⟨?_, hcheck, ?_⟩
  · rw [h1]
    show (GoogleAdsManager.get_bulk_metrics ⟨0 + 3, none⟩ true outs now₂ keywords).2.1 = _
    rw [Nat.zero_add, h2]
  · simp [GoogleAdsManager.execute_with_retry, hcheck]

/-- C9 witness: a concrete all-failing oracle drives a fresh adapter to a
count of 6 in two public calls, after which the breaker opens. -/
theorem C9_failure_count_per_attempt_witness :
    ((((⟨0, none⟩ : GoogleAdsManager).get_bulk_metrics true (fun _ => .adsErr) 0
        ["a"]).2.1.get_bulk_metrics true (fun _ => .adsErr) 0 ["a"]).2.1
      = ⟨6, none⟩)
    ∧ (⟨6, none⟩ : GoogleAdsManager).check_circuit_breaker 7 = (true, ⟨6, some 7⟩)
    ∧ (⟨6, none⟩ : GoogleAdsManager).execute_with_retry
        (fun _ => (.adsErr : AdsAttempt (List (Option ℤ)))) 7
      = (.error .breakerOpen, ⟨6, some 7⟩, 0) :=
  C9_failure_count_per_attempt.2 (fun _ => .adsErr) 0 0 7 ["a"] (fun _ => rfl)

/-! ## Trends adapter — src/trends.py, class GoogleTrendsManager

State: adaptive rate-limit delay, breaker counters, the hourly request cap
anchored at `last_hour_reset`, and the failed-keyword set.  Each entry into
the `try` body of `_get_single_trend_score_with_retry` draws one
`(time, outcome)` pair from the oracle stream; an outcome is only consumed
(an upstream call issued) when the breaker check admits the entry.
Sleeps affect only timing and are not modelled; the semaphore of size 1
serializes the per-keyword tasks, so a bulk run is modelled as sequential
execution in task-creation order. -/

def trends_threshold : Nat := 3
def trends_cb_timeout : ℚ := 600
def trends_max_retries : Nat := 3
def hourly_limit : Nat := 50

structure GoogleTrendsManager where
  rate_limit_delay : ℚ
  consecutive_failures : Nat
  circuit_breaker_opened_at : Option ℚ
  request_count : Nat
  last_hour_reset : ℚ
  successful_requests_in_row : Nat
  failed_keywords : List String
deriving DecidableEq

def GoogleTrendsManager.init (now : ℚ) : GoogleTrendsManager :=
  ⟨5, 0, none, 0, now, 0, []⟩

inductive TrendsErr where
  | overLimit
  | breakerOpen
deriving DecidableEq

/-- `_check_circuit_breaker`: reset the hourly counter when an hour has
elapsed since `last_hour_reset`; fail with the over-limit error when
`request_count` has reached `hourly_limit`; then the breaker proper, with the
same open/stamp/reset behaviour as the ads adapter (the breaker reset also
zeroes the success streak).  Mutations made before a raise are kept. -/
def GoogleTrendsManager.check_circuit_breaker (s : GoogleTrendsManager)
    (now : ℚ) : Option TrendsErr × GoogleTrendsManager :=
  let s := if 3600 ≤ now - s.last_hour_reset then
    { s with request_count := 0, last_hour_reset := now } else s
  if hourly_limit ≤ s.request_count then (some .overLimit, s)
  else if s.consecutive_failures < trends_threshold then (none, s)
  else
    let t0 := s.circuit_breaker_opened_at.getD now
    if now - t0 < trends_cb_timeout then
      (some .breakerOpen, { s with circuit_breaker_opened_at := some t0 })
    else
      (none, { s with circuit_breaker_opened_at := none,
                      consecutive_failures := 0,
                      successful_requests_in_row := 0 })

/-- One upstream call's outcome: a score, a quota-class error (CAPTCHA /
HTTP 429 / "quota" / "too many requests"), or any other error. -/
inductive UpOutcome where
  | ok (score : ℚ)
  | quotaErr
  | otherErr
deriving DecidableEq

/-- The generic `except Exception` bookkeeping of
`_get_single_trend_score_with_retry` (non-quota path): bump the failure
count, clear the streak, grow the delay up to 20 s. -/
def failBump (s : GoogleTrendsManager) : GoogleTrendsManager :=
  { s with consecutive_failures := s.consecutive_failures + 1,
           successful_requests_in_row := 0,
           rate_limit_delay := min 20 (s.rate_limit_delay * 1.2) }

/-- The success bookkeeping: zero the failure count, count the request, grow
the streak, and shrink the delay down to 3 s once the streak exceeds 5. -/
def succUpdate (s : GoogleTrendsManager) : GoogleTrendsManager :=
  let s := { s with consecutive_failures := 0,
                    request_count := s.request_count + 1,
                    successful_requests_in_row := s.successful_requests_in_row + 1 }
  if 5 < s.successful_requests_in_row then
    { s with rate_limit_delay := max 3 (s.rate_limit_delay * 0.95) }
  else s

/-- Result of one `_get_single_trend_score_with_retry` invocation:
`res = .error ()` models a raised `TrendQuotaExceededError`, `.ok v` a normal
return; `cur` is the next unconsumed oracle index; `calls` counts upstream
invocations and `succs` the successful ones among them. -/
structure SFRes where
  res : Except Unit (Option ℚ)
  state : GoogleTrendsManager
  cur : Nat
  calls : Nat
  succs : Nat

/-- `_get_single_trend_score_with_retry`, recursion on the retry budget.
A breaker-check error is caught by the function's own generic handler (its
Japanese message does not contain the `captcha`/`429`/`quota`/`too many
requests` markers the quota classifier looks for), producing a `None` return
with no upstream call.  A quota-class upstream error retries while
`retry_count < max_retries`, doubling the delay (cap 30) and clearing the
streak; once retries are exhausted the failure count is forced to the breaker
threshold and `TrendQuotaExceededError` is raised.  The fuel argument always
exceeds the remaining retry budget at every call site. -/
def singleFetchAux (oracle : Nat → ℚ × UpOutcome) :
    Nat → Nat → Nat → GoogleTrendsManager → SFRes
  | 0, cur, _, s => ⟨.error (), s, cur, 0, 0⟩
  | fuel + 1, cur, rc, s =>
    let t := (oracle cur).1
    let o := (oracle cur).2
    match s.check_circuit_breaker t with
    | (some _, s1) => ⟨.ok none, failBump s1, cur + 1, 0, 0⟩
    | (none, s1) =>
      match o with
      | .ok score => ⟨.ok (some score), succUpdate s1, cur + 1, 1, 1⟩
      | .quotaErr =>
        if rc < trends_max_retries then
          let s2 := { s1 with
            rate_limit_delay := min 30 (s1.rate_limit_delay * 2),
            successful_requests_in_row := 0 }
          let r := singleFetchAux oracle fuel (cur + 1) (rc + 1) s2
          ⟨r.res, r.state, r.cur, r.calls + 1, r.succs⟩
        else
          ⟨.error (), { s1 with consecutive_failures := trends_threshold },
           cur + 1, 1, 0⟩
      | .otherErr => ⟨.ok none, failBump s1, cur + 1, 1, 0⟩

/-- `_get_single_trend_score`: the retry entry point with `retry_count = 0`. -/
def GoogleTrendsManager.single_trend_score (s : GoogleTrendsManager)
    (oracle : Nat → ℚ × UpOutcome) (cur : Nat) : SFRes :=
  singleFetchAux oracle (trends_max_retries + 1) cur 0 s

/-! ### Bulk orchestration — `get_bulk_trends`, `_load_progress` -/

/-- The JSON progress snapshot `{completed, remaining, failed, timestamp}`. -/
structure Snapshot where
  completed : List (String × Option ℚ)
  remaining : List String
  failed : List String
  timestamp : ℚ
deriving DecidableEq

/-- `_load_progress`: no file (or an unreadable one) yields empty progress;
a snapshot older than 24 h is ignored; a fresh one replaces
`failed_keywords` and returns its `completed` map and `remaining` list. -/
def GoogleTrendsManager.load_progress (s : GoogleTrendsManager)
    (file : Option Snapshot) (now : ℚ) :
    (List (String × Option ℚ)) × List String × GoogleTrendsManager :=
  match file with
  | none => ([], [], s)
  | some d =>
    if 86400 < now - d.timestamp then ([], [], s)
    else (d.completed, d.remaining, { s with failed_keywords := d.failed })

/-- `[lst[i:i+n] for i in range(0, len(lst), n)]`, by fuel on the length. -/
def chunksOfAux {α : Type} (n : Nat) : Nat → List α → List (List α)
  | 0, _ => []
  | _, [] => []
  | fuel + 1, l => l.take n :: chunksOfAux n fuel (l.drop n)

def chunksOf {α : Type} (n : Nat) (l : List α) : List (List α) :=
  chunksOfAux n l.length l

/-- The abort bookkeeping on `TrendQuotaExceededError`: clamp
`request_count` to the hourly limit, then mark the cancelled tasks of the
current batch and every keyword of the unstarted batches as failed. -/
def bulkAbortState (s : GoogleTrendsManager) (rest : List String)
    (later : List (List String)) : GoogleTrendsManager :=
  { s with request_count := hourly_limit,
           failed_keywords := (rest ++ later.flatten).foldl setInsert s.failed_keywords }

/-- First-occurrence deduplication: the key order of a Python dict built by
iterating a keyword list (and the canonical representative for the
unspecified iteration order of `set(...)`, whose member set it matches). -/
def dedupFirst : List String → List String
  | [] => []
  | k :: ks => k :: (dedupFirst ks).filter (fun x => x ≠ k)

theorem mem_dedupFirst (x : String) : ∀ l : List String, x ∈ dedupFirst l ↔ x ∈ l := by
  intro l
  induction l with
  | nil => exact Iff.rfl
  | cons k ks ih =>
    simp only [dedupFirst, List.mem_cons, List.mem_filter, decide_eq_true_eq, ih]
    by_cases hx : x = k
    · subst hx; simp
    · simp [hx]

theorem nodup_dedupFirst : ∀ l : List String, (dedupFirst l).Nodup := by
  intro l
  induction l with
  | nil => exact List.nodup_nil
  | cons k ks ih =>
    refine List.nodup_cons.mpr ⟨?_, List.Nodup.filter _ ih⟩
    intro hk
    have := (List.mem_filter.mp hk).2
    simp at this

/-- `{k: results.get(k) for k in keywords}`: a dict comprehension over the
request list; duplicate keywords collapse onto their first occurrence. -/
def mkOut (keywords : List String) (results : String → Option (Option ℚ)) :
    List (String × Option ℚ) :=
  (dedupFirst keywords).map (fun k => (k, (results k).join))

/-- Result of the inner `for keyword, task in tasks` loop over one batch:
either the batch completed, or a task raised `TrendQuotaExceededError`,
yielding the not-yet-awaited remainder of the batch. -/
inductive BatchStep where
  | done (results : String → Option (Option ℚ)) (s : GoogleTrendsManager)
      (cur calls : Nat)
  | abort (results : String → Option (Option ℚ)) (s : GoogleTrendsManager)
      (cur calls : Nat) (rest : List String)

/-- The per-batch loop: await each keyword's task in order; a normal return
(including the `None` produced by the generic handler) is recorded in
`results`; `TrendQuotaExceededError` aborts the batch. -/
def runOneBatch (oracle : Nat → ℚ × UpOutcome) :
    List String → (String → Option (Option ℚ)) → GoogleTrendsManager →
    Nat → Nat → BatchStep
  | [], results, s, cur, calls => .done results s cur calls
  | k :: rest, results, s, cur, calls =>
    let r := s.single_trend_score oracle cur
    match r.res with
    | .ok v =>
      runOneBatch oracle rest (Function.update results k (some v)) r.state r.cur
        (calls + r.calls)
    | .error _ => .abort results r.state r.cur (calls + r.calls) rest

/-- Result of a bulk run: the returned map, the final adapter state, the next
oracle index, the number of upstream invocations, and whether the run
aborted on `TrendQuotaExceededError`. -/
structure BulkRes where
  out : List (String × Option ℚ)
  state : GoogleTrendsManager
  cur : Nat
  calls : Nat
  aborted : Bool

/-- The outer loop over batches. -/
def runBulk (oracle : Nat → ℚ × UpOutcome) (keywords : List String) :
    List (List String) → (String → Option (Option ℚ)) → GoogleTrendsManager →
    Nat → Nat → BulkRes
  | [], results, s, cur, calls => ⟨mkOut keywords results, s, cur, calls, false⟩
  | b :: later, results, s, cur, calls =>
    match runOneBatch oracle b results s cur calls with
    | .done results' s' cur' calls' =>
      runBulk oracle keywords later results' s' cur' calls'
    | .abort results' s' cur' calls' rest =>
      ⟨mkOut keywords results', bulkAbortState s' rest later, cur', calls', true⟩

/-- `get_bulk_trends`: load the snapshot, seed `results` with its completed
map, compute `remaining = set(keywords) − completed`, and either return
immediately (everything already done) or run the batches of size 3.
`saved_remaining` from the snapshot is loaded but, as in the source, unused.
Progress-file writes and deletes only mirror state already modelled. -/
def GoogleTrendsManager.get_bulk_trends (s : GoogleTrendsManager)
    (oracle : Nat → ℚ × UpOutcome) (file : Option Snapshot) (loadNow : ℚ)
    (keywords : List String) : BulkRes :=
  let lp := s.load_progress file loadNow
  let saved := lp.1
  let s1 := lp.2.2
  let completedKeys := saved.map Prod.fst
  let remaining := (dedupFirst keywords).filter (fun k => k ∉ completedKeys)
  let results0 : String → Option (Option ℚ) := fun k => saved.lookup k
  if remaining.isEmpty then ⟨mkOut keywords results0, s1, 0, 0, false⟩
  else runBulk oracle keywords (chunksOf 3 remaining) results0 s1 0 0

/-! ### Bulk-run lemmas -/

def BatchStep.resultsOf : BatchStep → (String → Option (Option ℚ))
  | .done r _ _ _ => r
  | .abort r _ _ _ _ => r

theorem lookup_some_mem_keys {α : Type} (l : List (String × α)) (k : String)
    (v : α) (h : l.lookup k = some v) : k ∈ l.map Prod.fst := by
  induction l with
  | nil => cases h
  | cons a l ih =>
    obtain ⟨k', v'⟩ := a
    by_cases hk : k = k'
    · subst hk; exact List.mem_cons_self _ _
    · have hb : (k == k') = false := by
        simp only [beq_eq_false_iff_ne, ne_eq]; exact hk
      simp only [List.lookup, hb] at h
      exact List.mem_cons_of_mem _ (ih h)

theorem mem_chunksOfAux {α : Type} (n : Nat) :
    ∀ (fuel : Nat) (l : List α) (c : List α), c ∈ chunksOfAux n fuel l → c ⊆ l := by
  intro fuel
  induction fuel with
  | zero => intro l c hc; simp [chunksOfAux] at hc
  | succ fuel ih =>
    intro l c hc
    cases l with
    | nil => simp [chunksOfAux] at hc
    | cons a l =>
      cases List.mem_cons.mp hc with
      | inl h => exact h ▸ List.take_subset _ _
      | inr h => exact (ih _ c h).trans (List.drop_subset _ _)

theorem mem_chunksOf {α : Type} (n : Nat) (l : List α) (c : List α)
    (hc : c ∈ chunksOf n l) : c ⊆ l :=
  mem_chunksOfAux n l.length l c hc

theorem runOneBatch_results_preserve (oracle : Nat → ℚ × UpOutcome) (k : String) :
    ∀ (b : List String) (results : String → Option (Option ℚ))
      (s : GoogleTrendsManager) (cur calls : Nat), k ∉ b →
      (runOneBatch oracle b results s cur calls).resultsOf k = results k := by
  intro b
  induction b with
  | nil => intro results s cur calls _; rfl
  | cons j rest ih =>
    intro results s cur calls hk
    have hkj : k ≠ j := fun h => hk (h ▸ List.mem_cons_self _ _)
    have hkr : k ∉ rest := fun h => hk (List.mem_cons_of_mem _ h)
    cases hres : (s.single_trend_score oracle cur).res with
    | ok v =>
      simp only [runOneBatch, hres]
      rw [ih _ _ _ _ hkr, Function.update_noteq hkj]
    | error e =>
      simp only [runOneBatch, hres, BatchStep.resultsOf]

theorem mkOut_fst (keywords : List String) (results : String → Option (Option ℚ)) :
    (mkOut keywords results).map Prod.fst = dedupFirst keywords := by
  simp only [mkOut, List.map_map]
  have : (Prod.fst ∘ fun k => (k, (results k).join)) = fun k : String => k := by
    funext k; rfl
  rw [this, List.map_id']

theorem lookup_mkOut (keywords : List String)
    (results : String → Option (Option ℚ)) (k : String) (hk : k ∈ keywords) :
    (mkOut keywords results).lookup k = some ((results k).join) :=
  lookup_map_pair_of_mem _ _ _ ((mem_dedupFirst k keywords).mpr hk)

theorem runBulk_out_fst (oracle : Nat → ℚ × UpOutcome) (keywords : List String) :
    ∀ (batches : List (List String)) (results : String → Option (Option ℚ))
      (s : GoogleTrendsManager) (cur calls : Nat),
      (runBulk oracle keywords batches results s cur calls).out.map Prod.fst
        = dedupFirst keywords := by
  intro batches
  induction batches with
  | nil => intro results s cur calls; exact mkOut_fst keywords results
  | cons b later ih =>
    intro results s cur calls
    cases hstep : runOneBatch oracle b results s cur calls with
    | done results' s' cur' calls' =>
      simp only [runBulk, hstep]
      exact ih results' s' cur' calls'
    | abort results' s' cur' calls' rest =>
      simp only [runBulk, hstep]
      exact mkOut_fst keywords results'

theorem runBulk_lookup_preserved (oracle : Nat → ℚ × UpOutcome)
    (keywords : List String) (k : String) (hkk : k ∈ keywords) :
    ∀ (batches : List (List String)) (results : String → Option (Option ℚ))
      (s : GoogleTrendsManager) (cur calls : Nat),
      (∀ b ∈ batches, k ∉ b) →
      (runBulk oracle keywords batches results s cur calls).out.lookup k
        = some ((results k).join) := by
  intro batches
  induction batches with
  | nil =>
    intro results s cur calls _
    exact lookup_map_pair_of_mem _ _ _ ((mem_dedupFirst k keywords).mpr hkk)
  | cons b later ih =>
    intro results s cur calls hnb
    have hkb : k ∉ b := hnb b (List.mem_cons_self _ _)
    have hpres := runOneBatch_results_preserve oracle k b results s cur calls hkb
    cases hstep : runOneBatch oracle b results s cur calls with
    | done results' s' cur' calls' =>
      simp only [runBulk, hstep]
      rw [ih results' s' cur' calls' (fun c hc => hnb c (List.mem_cons_of_mem _ hc))]
      rw [hstep] at hpres
      simp only [BatchStep.resultsOf] at hpres
      rw [hpres]
    | abort results' s' cur' calls' rest =>
      simp only [runBulk, hstep]
      rw [hstep] at hpres
      simp only [BatchStep.resultsOf] at hpres
      rw [← hpres]
      exact lookup_map_pair_of_mem _ _ _ ((mem_dedupFirst k keywords).mpr hkk)

/-- C3: for every input keyword list and loaded snapshot, the key list of the
returned map is exactly the deduplicated input — no keys leak in from the
snapshot, none are missing — and every requested keyword recorded as
completed in a snapshot at most 24 hours old is returned with the snapshot's
stored value. -/
theorem C3_bulk_trends_shape (oracle : Nat → ℚ × UpOutcome)
    (file : Option Snapshot) (keywords : List String)
    (s0 : GoogleTrendsManager) (loadNow : ℚ) :
    ((s0.get_bulk_trends oracle file loadNow keywords).out.map Prod.fst
        = dedupFirst keywords)
    ∧ (∀ (f : Snapshot) (k : String) (v : Option ℚ),
        file = some f → loadNow - f.timestamp ≤ 86400 → k ∈ keywords →
        f.completed.lookup k = some v →
        (s0.get_bulk_trends oracle file loadNow keywords).out.lookup k = some v) := by
  constructor
  · simp only [GoogleTrendsManager.get_bulk_trends]
    split
    · exact mkOut_fst _ _
    · exact runBulk_out_fst _ _ _ _ _ _ _
  · intro f k v hfile hfresh hkk hlk
    subst hfile
    have hload : s0.load_progress (some f) loadNow
        = (f.completed, f.remaining, { s0 with failed_keywords := f.failed }) := by
      simp only [GoogleTrendsManager.load_progress]
      rw [if_neg (by exact not_lt.mpr hfresh)]
    have hmemkeys : k ∈ f.completed.map Prod.fst := lookup_some_mem_keys _ _ _ hlk
    simp only [GoogleTrendsManager.get_bulk_trends, hload]
    split
    · have := lookup_mkOut keywords (fun x => List.lookup x f.completed) k hkk
      simp only [hlk] at this
      simpa using this
    · rw [runBulk_lookup_preserved oracle keywords k hkk _ _ _ _ _
        (by
          intro b hb hkb
          have hsub := mem_chunksOf 3 _ b hb
          have := hsub hkb
          have hmem := List.mem_filter.mp this
          simp only [decide_eq_true_eq] at hmem
          exact hmem.2 hmemkeys)]
      simp [hlk]

/-- C3 witness: a two-keyword request against a fresh snapshot that has
already completed `"a"` with score `7`; the upstream immediately hits quota
for the remaining keyword, and the returned map still has exactly the request
keys with the snapshot value for `"a"`. -/
theorem C3_bulk_trends_shape_witness :
    (((GoogleTrendsManager.init 0).get_bulk_trends (fun _ => (0, .quotaErr))
        (some ⟨[("a", some 7)], ["b"], [], 0⟩) 100 ["a", "b"]).out.map Prod.fst
      = dedupFirst ["a", "b"])
    ∧ ((GoogleTrendsManager.init 0).get_bulk_trends (fun _ => (0, .quotaErr))
        (some ⟨[("a", some 7)], ["b"], [], 0⟩) 100 ["a", "b"]).out.lookup "a"
      = some (some 7) :=
  ⟨(C3_bulk_trends_shape (fun _ => (0, .quotaErr))
      (some ⟨[("a", some 7)], ["b"], [], 0⟩) ["a", "b"]
      (GoogleTrendsManager.init 0) 100).1,
   (C3_bulk_trends_shape (fun _ => (0, .quotaErr))
      (some ⟨[("a", some 7)], ["b"], [], 0⟩) ["a", "b"]
      (GoogleTrendsManager.init 0) 100).2
     ⟨[("a", some 7)], ["b"], [], 0⟩ "a" (some 7) rfl (by norm_num)
     (by decide) rfl⟩

/-! ### Hourly-cap lemmas -/

theorem runBulk_aborted_request_count (oracle : Nat → ℚ × UpOutcome)
    (keywords : List String) :
    ∀ (batches : List (List String)) (results : String → Option (Option ℚ))
      (s : GoogleTrendsManager) (cur calls : Nat),
      (runBulk oracle keywords batches results s cur calls).aborted = true →
      (runBulk oracle keywords batches results s cur calls).state.request_count
        = hourly_limit := by
  intro batches
  induction batches with
  | nil => intro results s cur calls h; cases h
  | cons b later ih =>
    intro results s cur calls h
    cases hstep : runOneBatch oracle b results s cur calls with
    | done results' s' cur' calls' =>
      simp only [runBulk, hstep] at h ⊢
      exact ih results' s' cur' calls' h
    | abort results' s' cur' calls' rest =>
      simp only [runBulk, hstep]
      rfl

/-- An entry with the request counter at or above the hourly limit, inside
the current hour window, raises the over-limit error before any upstream
call; the generic handler turns this into a `None` return with bumped
failure bookkeeping. -/
theorem overLimit_fail_fast (s : GoogleTrendsManager)
    (oracle : Nat → ℚ × UpOutcome) (cur : Nat)
    (h1 : hourly_limit ≤ s.request_count)
    (h2 : (oracle cur).1 - s.last_hour_reset < 3600) :
    s.check_circuit_breaker (oracle cur).1 = (some .overLimit, s)
    ∧ s.single_trend_score oracle cur = ⟨.ok none, failBump s, cur + 1, 0, 0⟩ := by
  have hcheck : s.check_circuit_breaker (oracle cur).1 = (some .overLimit, s) := by
    simp only [GoogleTrendsManager.check_circuit_breaker,
      if_neg (not_le.mpr h2), if_pos h1]
  refine ⟨hcheck, ?_⟩
  show singleFetchAux oracle (trends_max_retries + 1) cur 0 s = _
  simp only [trends_max_retries, singleFetchAux, hcheck]

/-- C10: a bulk run that aborts on `TrendQuotaExceededError` returns with
`request_count` clamped to `hourly_limit`; consequently every subsequent
single-keyword fetch within the hour anchored at `last_hour_reset` raises
the over-limit error at the breaker check, issues no upstream call, and
yields an absent score. -/
theorem C10_quota_abort_lockout :
    (∀ (s0 : GoogleTrendsManager) (oracle : Nat → ℚ × UpOutcome)
       (file : Option Snapshot) (loadNow : ℚ) (keywords : List String),
      (s0.get_bulk_trends oracle file loadNow keywords).aborted = true →
      (s0.get_bulk_trends oracle file loadNow keywords).state.request_count
        = hourly_limit)
  ∧ (∀ (s : GoogleTrendsManager) (oracle : Nat → ℚ × UpOutcome) (cur : Nat),
      hourly_limit ≤ s.request_count →
      (oracle cur).1 - s.last_hour_reset < 3600 →
      s.check_circuit_breaker (oracle cur).1 = (some .overLimit, s)
      ∧ s.single_trend_score oracle cur = ⟨.ok none, failBump s, cur + 1, 0, 0⟩) := by
  constructor
  · intro s0 oracle file loadNow keywords h
    simp only [GoogleTrendsManager.get_bulk_trends] at h ⊢
    split at h
    · next => simp at h
    · next hne =>
      rw [if_neg hne]
      exact runBulk_aborted_request_count oracle keywords _ _ _ _ _ h
  · intro s oracle cur h1 h2
    exact overLimit_fail_fast s oracle cur h1 h2

/-- C10 witness: a one-keyword bulk run against an always-quota upstream
aborts with the counter clamped to 50, and a fetch in the locked state makes
no upstream call. -/
theorem C10_quota_abort_lockout_witness :
    (((GoogleTrendsManager.init 0).get_bulk_trends (fun _ => (0, .quotaErr))
        none 0 ["a"]).state.request_count = hourly_limit)
    ∧ ((⟨5, 0, none, 50, 0, 0, []⟩ : GoogleTrendsManager).check_circuit_breaker
          ((fun _ => ((10 : ℚ), UpOutcome.ok 1)) 0).1
        = (some .overLimit, ⟨5, 0, none, 50, 0, 0, []⟩)
       ∧ (⟨5, 0, none, 50, 0, 0, []⟩ : GoogleTrendsManager).single_trend_score
            (fun _ => ((10 : ℚ), UpOutcome.ok 1)) 0
          = ⟨.ok none, failBump ⟨5, 0, none, 50, 0, 0, []⟩, 0 + 1, 0, 0⟩) :=
  ⟨C10_quota_abort_lockout.1 (GoogleTrendsManager.init 0) (fun _ => (0, .quotaErr))
      none 0 ["a"]
      (by norm_num [GoogleTrendsManager.get_bulk_trends,
            GoogleTrendsManager.load_progress, dedupFirst, chunksOf, chunksOfAux,
            runBulk, runOneBatch, GoogleTrendsManager.single_trend_score,
            singleFetchAux, GoogleTrendsManager.check_circuit_breaker,
            GoogleTrendsManager.init, trends_threshold, trends_max_retries,
            hourly_limit, failBump, succUpdate, bulkAbortState]),
   C10_quota_abort_lockout.2 ⟨5, 0, none, 50, 0, 0, []⟩
      (fun _ => ((10 : ℚ), UpOutcome.ok 1)) 0 (by decide)
      (by norm_num)⟩

/-! ### Rolling-window accounting for the hourly cap -/

theorem failBump_request_count (s : GoogleTrendsManager) :
    (failBump s).request_count = s.request_count := rfl

theorem failBump_last_hour_reset (s : GoogleTrendsManager) :
    (failBump s).last_hour_reset = s.last_hour_reset := rfl

theorem succUpdate_request_count (s : GoogleTrendsManager) :
    (succUpdate s).request_count = s.request_count + 1 := by
  simp only [succUpdate]; split <;> rfl

theorem succUpdate_last_hour_reset (s : GoogleTrendsManager) :
    (succUpdate s).last_hour_reset = s.last_hour_reset := by
  simp only [succUpdate]; split <;> rfl

/-- When the entry time is still inside the hour window, the breaker check
preserves the counter and the anchor, and an admitted entry implies the
counter is strictly below the hourly limit. -/
theorem check_no_reset (s : GoogleTrendsManager) (now : ℚ)
    (h : now - s.last_hour_reset < 3600) :
    (s.check_circuit_breaker now).2.request_count = s.request_count
    ∧ (s.check_circuit_breaker now).2.last_hour_reset = s.last_hour_reset
    ∧ ((s.check_circuit_breaker now).1 = none →
        s.request_count < hourly_limit) := by
  simp only [GoogleTrendsManager.check_circuit_breaker, if_neg (not_le.mpr h)]
  split
  · next h50 => exact ⟨rfl, rfl, by intro hc; cases hc⟩
  · next h50 =>
    split
    · exact ⟨rfl, rfl, fun _ => Nat.lt_of_not_le h50⟩
    · split
      · exact ⟨rfl, rfl, by intro hc; cases hc⟩
      · exact ⟨rfl, rfl, fun _ => Nat.lt_of_not_le h50⟩

theorem singleFetchAux_window (oracle : Nat → ℚ × UpOutcome) :
    ∀ (fuel cur rc : Nat) (s : GoogleTrendsManager),
      (∀ i, (oracle i).1 - s.last_hour_reset < 3600) →
      (singleFetchAux oracle fuel cur rc s).state.last_hour_reset = s.last_hour_reset
      ∧ (singleFetchAux oracle fuel cur rc s).state.request_count
          = s.request_count + (singleFetchAux oracle fuel cur rc s).succs
      ∧ (s.request_count ≤ hourly_limit →
          (singleFetchAux oracle fuel cur rc s).state.request_count ≤ hourly_limit) := by
  intro fuel
  induction fuel with
  | zero =>
    intro cur rc s _
    exact ⟨rfl, by simp [singleFetchAux], fun h => h⟩
  | succ fuel ih =>
    intro cur rc s h
    obtain ⟨hc1, hc2, hc3⟩ := check_no_reset s (oracle cur).1 (h cur)
    cases hc : s.check_circuit_breaker (oracle cur).1 with
    | mk o s1 =>
      rw [hc] at hc1 hc2 hc3
      simp only at hc1 hc2 hc3
      cases o with
      | some e =>
        simp only [singleFetchAux, hc]
        exact ⟨by rw [failBump_last_hour_reset, hc2],
               by rw [failBump_request_count, hc1, Nat.add_zero],
               fun hb => by rw [failBump_request_count, hc1]; omega⟩
      | none =>
        cases ho : (oracle cur).2 with
        | ok score =>
          simp only [singleFetchAux, hc, ho]
          refine ⟨by rw [succUpdate_last_hour_reset, hc2],
                  by rw [succUpdate_request_count, hc1],
                  fun hb => ?_⟩
          have hlt := hc3 rfl
          rw [succUpdate_request_count, hc1]
          omega
        | quotaErr =>
          by_cases hrc : rc < trends_max_retries
          · simp only [singleFetchAux, hc, ho, if_pos hrc]
            have hs2lhr : ({ s1 with
                rate_limit_delay := min 30 (s1.rate_limit_delay * 2),
                successful_requests_in_row := 0 } :
                  GoogleTrendsManager).last_hour_reset = s.last_hour_reset := hc2
            have hrec := ih (cur + 1) (rc + 1)
              { s1 with rate_limit_delay := min 30 (s1.rate_limit_delay * 2),
                        successful_requests_in_row := 0 }
              (by intro i; rw [hs2lhr]; exact h i)
            refine ⟨by rw [hrec.1, hs2lhr], ?_, fun hb => ?_⟩
            · rw [hrec.2.1]
              show s1.request_count + _ = _
              rw [hc1]
            · apply hrec.2.2
              show s1.request_count ≤ hourly_limit
              rw [hc1]; exact hb
          · simp only [singleFetchAux, hc, ho, if_neg hrc]
            exact ⟨hc2, by rw [← hc1]; rfl, fun hb => by
              show s1.request_count ≤ hourly_limit
              rw [hc1]; exact hb⟩
        | otherErr =>
          simp only [singleFetchAux, hc, ho]
          exact ⟨by rw [failBump_last_hour_reset, hc2],
                 by rw [failBump_request_count, hc1, Nat.add_zero],
                 fun hb => by rw [failBump_request_count, hc1]; omega⟩

/-- A sequence of `n` single-keyword fetches, threading state, oracle cursor,
total upstream calls, and total successful upstream calls. -/
def fetchSeq (oracle : Nat → ℚ × UpOutcome) (s : GoogleTrendsManager)
    (cur : Nat) : Nat → GoogleTrendsManager × Nat × Nat × Nat
  | 0 => (s, cur, 0, 0)
  | n + 1 =>
    let p := fetchSeq oracle s cur n
    let r := p.1.single_trend_score oracle p.2.1
    (r.state, r.cur, p.2.2.1 + r.calls, p.2.2.2 + r.succs)

theorem fetchSeq_window (oracle : Nat → ℚ × UpOutcome) (s : GoogleTrendsManager)
    (cur : Nat) (h : ∀ i, (oracle i).1 - s.last_hour_reset < 3600) :
    ∀ n : Nat,
      (fetchSeq oracle s cur n).1.last_hour_reset = s.last_hour_reset
      ∧ (fetchSeq oracle s cur n).1.request_count
          = s.request_count + (fetchSeq oracle s cur n).2.2.2
      ∧ (s.request_count ≤ hourly_limit →
          (fetchSeq oracle s cur n).1.request_count ≤ hourly_limit) := by
  intro n
  induction n with
  | zero => exact ⟨rfl, rfl, fun h => h⟩
  | succ n ih =>
    obtain ⟨ih1, ih2, ih3⟩ := ih
    have hsf := singleFetchAux_window oracle (trends_max_retries + 1)
      (fetchSeq oracle s cur n).2.1 0 (fetchSeq oracle s cur n).1
      (by intro i; rw [ih1]; exact h i)
    refine ⟨?_, ?_, fun hb => ?_⟩
    · show (singleFetchAux oracle (trends_max_retries + 1) _ 0 _).state.last_hour_reset = _
      rw [hsf.1, ih1]
    · show (singleFetchAux oracle (trends_max_retries + 1) _ 0 _).state.request_count
        = s.request_count + (_ + (singleFetchAux oracle _ _ 0 _).succs)
      rw [hsf.2.1, ih2]
      omega
    · show (singleFetchAux oracle (trends_max_retries + 1) _ 0 _).state.request_count
        ≤ hourly_limit
      exact hsf.2.2 (ih3 hb)

/-- An upstream that always answers at time `0` and alternates three
quota-class failures with one success per fetch. -/
def c7Oracle : Nat → ℚ × UpOutcome :=
  fun i => (0, if i % 4 = 3 then .ok 1 else .quotaErr)

set_option maxRecDepth 100000 in
set_option maxHeartbeats 1600000 in
/-- C7 counterexample: thirteen consecutive fetches against `c7Oracle`, all
of whose attempt times are `0` and whose hour window stays anchored at `0`,
issue 52 upstream calls — more than `hourly_limit = 50` in a single one-hour
window, because failed upstream attempts never increment `request_count`. -/
theorem C7_hourly_cap_counterexample :
    (fetchSeq c7Oracle (GoogleTrendsManager.init 0) 0 13).2.2.1 = 52
    ∧ hourly_limit = 50
    ∧ ((List.range 52).all (fun i => decide ((c7Oracle i).1 = 0))) = true
    ∧ (fetchSeq c7Oracle (GoogleTrendsManager.init 0) 0 13).1.last_hour_reset = 0
    ∧ (fetchSeq c7Oracle (GoogleTrendsManager.init 0) 0 13).2.1 = 52 := by
  refine ⟨?_, rfl, by decide, ?_, ?_⟩ <;>
    norm_num [fetchSeq, c7Oracle, GoogleTrendsManager.single_trend_score,
      singleFetchAux, GoogleTrendsManager.check_circuit_breaker,
      GoogleTrendsManager.init, trends_threshold, trends_max_retries,
      hourly_limit, failBump, succUpdate]

/-- C7 amended: `request_count` is tracked in the one-hour window anchored at
`last_hour_reset` and reset when the hour elapses; an entry with the counter
at or above `hourly_limit` inside the window fails fast with the over-limit
error and no upstream call; and in the window anchored at `last_hour_reset`
the number of *successful* upstream calls is bounded by
`hourly_limit − request_count` (failed attempts are not counted, so total
upstream invocations are not bounded). -/
theorem C7_hourly_cap :
    (∀ (s : GoogleTrendsManager) (now : ℚ),
      3600 ≤ now - s.last_hour_reset →
      (s.check_circuit_breaker now).2.request_count = 0
      ∧ (s.check_circuit_breaker now).2.last_hour_reset = now)
  ∧ (∀ (s : GoogleTrendsManager) (oracle : Nat → ℚ × UpOutcome) (cur : Nat),
      hourly_limit ≤ s.request_count →
      (oracle cur).1 - s.last_hour_reset < 3600 →
      s.single_trend_score oracle cur = ⟨.ok none, failBump s, cur + 1, 0, 0⟩)
  ∧ (∀ (oracle : Nat → ℚ × UpOutcome) (s : GoogleTrendsManager) (cur n : Nat),
      (∀ i, (oracle i).1 - s.last_hour_reset < 3600) →
      s.request_count ≤ hourly_limit →
      (fetchSeq oracle s cur n).1.request_count
          = s.request_count + (fetchSeq oracle s cur n).2.2.2
      ∧ (fetchSeq oracle s cur n).2.2.2 ≤ hourly_limit - s.request_count) := by
  refine ⟨?_, ?_, ?_⟩
  · intro s now h
    simp only [GoogleTrendsManager.check_circuit_breaker, if_pos h]
    split
    · exact ⟨rfl, rfl⟩
    · split
      · exact ⟨rfl, rfl⟩
      · split
        · exact ⟨rfl, rfl⟩
        · exact ⟨rfl, rfl⟩
  · intro s oracle cur h1 h2
    exact (overLimit_fail_fast s oracle cur h1 h2).2
  · intro oracle s cur n hwin hb
    obtain ⟨h1, h2, h3⟩ := fetchSeq_window oracle s cur hwin n
    exact ⟨h2, by have := h3 hb; omega⟩

/-- C7 witness: the hour reset at `now = 3600`, the over-limit fail-fast at a
saturated counter, and the success bound over one fetch from a fresh state. -/
theorem C7_hourly_cap_witness :
    (((GoogleTrendsManager.init 0).check_circuit_breaker 3600).2.request_count = 0
     ∧ ((GoogleTrendsManager.init 0).check_circuit_breaker 3600).2.last_hour_reset
        = 3600)
    ∧ ((⟨5, 0, none, 50, 0, 0, []⟩ : GoogleTrendsManager).single_trend_score
          (fun _ => ((20 : ℚ), UpOutcome.ok 2)) 0
        = ⟨.ok none, failBump ⟨5, 0, none, 50, 0, 0, []⟩, 0 + 1, 0, 0⟩)
    ∧ ((fetchSeq (fun _ => ((0 : ℚ), UpOutcome.otherErr))
          (GoogleTrendsManager.init 0) 0 1).1.request_count
        = (GoogleTrendsManager.init 0).request_count
          + (fetchSeq (fun _ => ((0 : ℚ), UpOutcome.otherErr))
              (GoogleTrendsManager.init 0) 0 1).2.2.2
       ∧ (fetchSeq (fun _ => ((0 : ℚ), UpOutcome.otherErr))
            (GoogleTrendsManager.init 0) 0 1).2.2.2
          ≤ hourly_limit - (GoogleTrendsManager.init 0).request_count) :=
  ⟨C7_hourly_cap.1 (GoogleTrendsManager.init 0) 3600
      (by norm_num [GoogleTrendsManager.init]),
   C7_hourly_cap.2.1 ⟨5, 0, none, 50, 0, 0, []⟩ (fun _ => ((20 : ℚ), UpOutcome.ok 2))
      0 (by decide) (by norm_num),
   C7_hourly_cap.2.2 (fun _ => ((0 : ℚ), UpOutcome.otherErr))
      (GoogleTrendsManager.init 0) 0 1
      (by intro i; norm_num [GoogleTrendsManager.init]) (by decide)⟩

/-! ## Synchronous batch coordinator — src/api_routes.py

`KeywordBatchRequest.validate_keywords` deduplicates via `list(set(v))`
(iteration order unspecified; modelled canonically as first-occurrence
order).  `process_keywords_batch` partitions the deduplicated keywords into
cache hits and misses, chunks the misses, runs both adapters per chunk
(their behaviour is a per-chunk outcome oracle: a gather timeout, and each
adapter either raising or returning a dict), merges the per-chunk dicts, and
emits one `KeywordMetric` per keyword.  The write-through to the cache does
not affect the returned list and is not modelled. -/

/-- The cached value written by `CacheManager.set_keyword_data`. -/
structure MetricRecordC where
  googleAdsAvgMonthlySearches : Option ℤ
  googleTrendsScore : Option ℚ
  cached_at : ℚ
deriving DecidableEq

structure KeywordMetric where
  keyword : String
  googleAdsAvgMonthlySearches : Option ℤ
  googleTrendsScore : Option ℚ
deriving DecidableEq

/-- Python `round(x, 1)` on the score (the float tie-to-even behaviour at
exact midpoints is immaterial to every claim checked here). -/
def round1 (x : ℚ) : ℚ := (round (x * 10) : ℤ) / 10

/-- Joint outcome of one chunk's concurrent adapter calls: a gather timeout,
or each adapter independently raising (`.error`) or returning its dict. -/
structure ChunkOut where
  timeout : Bool
  ads : Except Unit (List (String × Option ℤ))
  trends : Except Unit (List (String × Option ℚ))

/-- The ads dict merged for a chunk: on timeout or an adapter exception,
`{kw: None for kw in chunk}`. -/
def chunkAdsDict (chunk : List String) (co : ChunkOut) : List (String × Option ℤ) :=
  if co.timeout then chunk.map (fun kw => (kw, none))
  else match co.ads with
    | .ok d => d
    | .error _ => chunk.map (fun kw => (kw, none))

def chunkTrendsDict (chunk : List String) (co : ChunkOut) :
    List (String × Option ℚ) :=
  if co.timeout then chunk.map (fun kw => (kw, none))
  else match co.trends with
    | .ok d => d
    | .error _ => chunk.map (fun kw => (kw, none))

/-- `accumulated.update(d)`: keys of `d` win. -/
def updDict {α : Type} (m : String → Option α) (d : List (String × α)) :
    String → Option α :=
  fun k => match d.lookup k with
    | some v => some v
    | none => m k

def process_keywords_batch (cache : String → Option MetricRecordC)
    (outs : Nat → ChunkOut) (keywords : List String) (chunk_size : Nat) :
    List KeywordMetric :=
  let hits := keywords.filterMap (fun k => (cache k).map (fun d => (k, d)))
  let missing := keywords.filter (fun k => (cache k).isNone)
  let hitMetrics := hits.map (fun p =>
    (⟨p.1, p.2.googleAdsAvgMonthlySearches, p.2.googleTrendsScore.map round1⟩ :
      KeywordMetric))
  if missing.isEmpty then hitMetrics
  else
    let chunks := chunksOf chunk_size missing
    let allAds := chunks.enum.foldl
      (fun m p => updDict m (chunkAdsDict p.2 (outs p.1))) (fun _ => none)
    let allTrends := chunks.enum.foldl
      (fun m p => updDict m (chunkTrendsDict p.2 (outs p.1))) (fun _ => none)
    let missMetrics := missing.map (fun k =>
      (⟨k, (allAds k).join, ((allTrends k).join).map round1⟩ : KeywordMetric))
    hitMetrics ++ missMetrics

/-! ### Coordinator lemmas -/

theorem filterMap_pair_fst (cache : String → Option MetricRecordC) :
    ∀ l : List String,
      ((l.filterMap (fun k => (cache k).map (fun d => (k, d)))).map Prod.fst)
        = l.filter (fun k => (cache k).isSome) := by
  intro l
  induction l with
  | nil => rfl
  | cons k l ih =>
    cases hc : cache k with
    | none => simp [List.filterMap_cons, List.filter_cons, hc, ih]
    | some d => simp [List.filterMap_cons, List.filter_cons, hc, ih]

theorem process_map_keyword (cache : String → Option MetricRecordC)
    (outs : Nat → ChunkOut) (keywords : List String) (chunk_size : Nat) :
    (process_keywords_batch cache outs keywords chunk_size).map KeywordMetric.keyword
      = keywords.filter (fun k => (cache k).isSome)
        ++ keywords.filter (fun k => (cache k).isNone) := by
  simp only [process_keywords_batch]
  split
  · next hempty =>
    rw [List.isEmpty_iff] at hempty
    rw [hempty, List.append_nil, List.map_map, ← filterMap_pair_fst cache]
    rfl
  · rw [List.map_append, List.map_map, List.map_map, ← filterMap_pair_fst cache]
    congr 1
    exact (List.map_congr_left (fun k _ => rfl)).trans (List.map_id _)

theorem process_keyword_perm (cache : String → Option MetricRecordC)
    (outs : Nat → ChunkOut) (keywords : List String) (chunk_size : Nat) :
    ((process_keywords_batch cache outs keywords chunk_size).map
        KeywordMetric.keyword).Perm keywords := by
  rw [process_map_keyword]
  have h := List.filter_append_perm (fun k => (cache k).isSome) keywords
  refine List.Perm.trans ?_ h
  apply List.Perm.append_left
  apply List.Perm.of_eq
  apply List.filter_congr
  intro k _
  cases cache k <;> rfl

theorem foldl_updDict_congr {α : Type} (F G : Nat → List String → List (String × α))
    (hFG : ∀ i c, F i c = G i c) :
    ∀ (l : List (Nat × List String)) (m : String → Option α),
      l.foldl (fun m p => updDict m (F p.1 p.2)) m
        = l.foldl (fun m p => updDict m (G p.1 p.2)) m := by
  intro l
  induction l with
  | nil => intro m; rfl
  | cons p l ih =>
    intro m
    simp only [List.foldl_cons, hFG p.1 p.2]
    exact ih _

/-- C1: for a valid batch request (1–200 keywords), every keyword of the
deduplicated request appears in the response exactly once (a permutation
with no duplicates, missing data encoded as `none`, never omission); and the
adapter outcomes of one upstream — including total failure — do not affect
the other upstream's field on any keyword. -/
theorem C1_batch_response (K : List String) (cache : String → Option MetricRecordC)
    (outs outs' : Nat → ChunkOut) (cs : Nat)
    (h1 : 1 ≤ K.length) (h2 : K.length ≤ 200) :
    ((process_keywords_batch cache outs (dedupFirst K) cs).map
        KeywordMetric.keyword).Perm (dedupFirst K)
    ∧ ((process_keywords_batch cache outs (dedupFirst K) cs).map
        KeywordMetric.keyword).Nodup
    ∧ ((∀ i, (outs i).trends = (outs' i).trends ∧ (outs i).timeout = (outs' i).timeout) →
        (process_keywords_batch cache outs (dedupFirst K) cs).map
            (fun m => (m.keyword, m.googleTrendsScore))
          = (process_keywords_batch cache outs' (dedupFirst K) cs).map
            (fun m => (m.keyword, m.googleTrendsScore)))
    ∧ ((∀ i, (outs i).ads = (outs' i).ads ∧ (outs i).timeout = (outs' i).timeout) →
        (process_keywords_batch cache outs (dedupFirst K) cs).map
            (fun m => (m.keyword, m.googleAdsAvgMonthlySearches))
          = (process_keywords_batch cache outs' (dedupFirst K) cs).map
            (fun m => (m.keyword, m.googleAdsAvgMonthlySearches))) := by
  have hperm := process_keyword_perm cache outs (dedupFirst K) cs
  refine ⟨hperm, hperm.symm.nodup (nodup_dedupFirst K), ?_, ?_⟩
  · intro hagree
    have hdict : ∀ i c, chunkTrendsDict c (outs i) = chunkTrendsDict c (outs' i) := by
      intro i c
      unfold chunkTrendsDict
      rw [(hagree i).1, (hagree i).2]
    simp only [process_keywords_batch]
    split
    · rfl
    · rw [List.map_append, List.map_append, List.map_map, List.map_map,
        List.map_map,
        foldl_updDict_congr (fun i c => chunkTrendsDict c (outs i))
          (fun i c => chunkTrendsDict c (outs' i)) hdict]
      congr 1
  · intro hagree
    have hdict : ∀ i c, chunkAdsDict c (outs i) = chunkAdsDict c (outs' i) := by
      intro i c
      unfold chunkAdsDict
      rw [(hagree i).1, (hagree i).2]
    simp only [process_keywords_batch]
    split
    · rfl
    · rw [List.map_append, List.map_append, List.map_map, List.map_map,
        List.map_map,
        foldl_updDict_congr (fun i c => chunkAdsDict c (outs i))
          (fun i c => chunkAdsDict c (outs' i)) hdict]
      congr 1

/-- A concrete chunk outcome: no timeout, both adapters raising. -/
def c1Outs : Nat → ChunkOut := fun _ => ⟨false, .error (), .error ()⟩

/-- C1 witness: a duplicated two-keyword request with an empty cache and both
adapters failing still answers exactly the deduplicated keyword set. -/
theorem C1_batch_response_witness :
    ((process_keywords_batch (fun _ => none) c1Outs (dedupFirst ["a", "a", "b"]) 20).map
        KeywordMetric.keyword).Perm (dedupFirst ["a", "a", "b"])
    ∧ ((process_keywords_batch (fun _ => none) c1Outs
        (dedupFirst ["a", "a", "b"]) 20).map KeywordMetric.keyword).Nodup
    ∧ ((∀ i, (c1Outs i).trends = (c1Outs i).trends
          ∧ (c1Outs i).timeout = (c1Outs i).timeout) →
        (process_keywords_batch (fun _ => none) c1Outs
            (dedupFirst ["a", "a", "b"]) 20).map
            (fun m => (m.keyword, m.googleTrendsScore))
          = (process_keywords_batch (fun _ => none) c1Outs
              (dedupFirst ["a", "a", "b"]) 20).map
              (fun m => (m.keyword, m.googleTrendsScore)))
    ∧ ((∀ i, (c1Outs i).ads = (c1Outs i).ads
          ∧ (c1Outs i).timeout = (c1Outs i).timeout) →
        (process_keywords_batch (fun _ => none) c1Outs
            (dedupFirst ["a", "a", "b"]) 20).map
            (fun m => (m.keyword, m.googleAdsAvgMonthlySearches))
          = (process_keywords_batch (fun _ => none) c1Outs
              (dedupFirst ["a", "a", "b"]) 20).map
              (fun m => (m.keyword, m.googleAdsAvgMonthlySearches))) :=
  C1_batch_response ["a", "a", "b"] (fun _ => none) c1Outs c1Outs 20
    (by decide) (by decide)

end AdsTrends
